import Mathlib

/-!
Verification of `src/replace_section.py`, a single-file utility that
replaces a marked section of a text file with fourteen generated
field-definition blocks.

The script is embedded shallowly: the file is a `List String` of lines
(as produced by Python `readlines`), the marker scan is a recursive
function mirroring the `for`/`break` loop, the generation loop is a
`mapM` over the index range (the dictionary lookup `ordinal_map[i]` is
fallible, hence `Option`), and the final outcome is a `RunResult` that
records either the error exit (no write) or the written content.
-/

set_option maxRecDepth 8000

namespace ReplaceSection

/-- The start marker literal from line 13 of the script. -/
def startMarker : String := "// Nano Banana - Input Images"

/-- The exclusion substring from line 13 of the script (note: no "//"). -/
def exclMarker : String := "Nano Banana - Aspect Ratio"

/-- The end marker literal from line 15 of the script. -/
def endMarker : String := "// Nano Banana - Aspect Ratio"

/-- Character-list prefix test. -/
def prefixOfChars : List Char → List Char → Bool
  | [], _ => true
  | _ :: _, [] => false
  | a :: as, b :: bs => a == b && prefixOfChars as bs

/-- Character-list substring test: does the first list occur contiguously
inside the second? -/
def infixOfChars : List Char → List Char → Bool
  | p, [] => p.isEmpty
  | p, b :: bs => prefixOfChars p (b :: bs) || infixOfChars p bs

/-- Python's substring test `pat in s`. -/
def containsStr (s pat : String) : Bool :=
  infixOfChars pat.toList s.toList

/-- The condition of the first `if` in the scan loop:
`'// Nano Banana - Input Images' in line and 'Nano Banana - Aspect Ratio' not in line`. -/
def isStartLine (line : String) : Bool :=
  containsStr line startMarker && !containsStr line exclMarker

/-- The condition of the second `if` in the scan loop:
`'// Nano Banana - Aspect Ratio' in line`. -/
def isEndLine (line : String) : Bool :=
  containsStr line endMarker

/-- One iteration's effect on `start_idx`: the first `if` of the loop body. -/
def stepState (st : Option Nat) (i : Nat) (line : String) : Option Nat :=
  if isStartLine line then some i else st

/-- The scan loop of lines 12-17: `i` is the absolute index of the head of
the remaining list, `st` the current `start_idx`.  Returns the pair
`(start_idx, end_idx)`; the loop `break`s as soon as `end_idx` is set. -/
def scanFrom : List String → Nat → Option Nat → Option Nat × Option Nat
  | [], _, st => (st, none)
  | line :: rest, i, st =>
    let st' := stepState st i line
    if st'.isSome && isEndLine line then (st', some i)
    else scanFrom rest (i + 1) st'

/-- The whole marker scan on a file's line list. -/
def scanMarkers (lines : List String) : Option Nat × Option Nat :=
  scanFrom lines 0 none

/-- `start_idx` after the loop has consumed a segment without breaking. -/
def segState : List String → Nat → Option Nat → Option Nat
  | [], _, st => st
  | line :: rest, i, st => segState rest (i + 1) (stepState st i line)

/-- Whether the loop `break`s (records `end_idx`) somewhere inside a segment. -/
def segBreaks : List String → Nat → Option Nat → Bool
  | [], _, _ => false
  | line :: rest, i, st =>
    let st' := stepState st i line
    if st'.isSome && isEndLine line then true else segBreaks rest (i + 1) st'

/-- The `ordinal_map` dictionary of lines 29-34. -/
def ordinal_map : Nat → Option String
  | 1 => some "First"
  | 2 => some "Second"
  | 3 => some "Third"
  | 4 => some "Fourth"
  | 5 => some "Fifth"
  | 6 => some "Sixth"
  | 7 => some "Seventh"
  | 8 => some "Eighth"
  | 9 => some "Ninth"
  | 10 => some "Tenth"
  | 11 => some "Eleventh"
  | 12 => some "Twelfth"
  | 13 => some "Thirteenth"
  | 14 => some "Fourteenth"
  | _ => none

/-- The f-string `field_template` of lines 37-50, given the index `i` and the
already looked-up ordinal word.  Literal braces are `\x7b`/`\x7d` and literal
single quotes `\x27`. -/
def field_template (i : Nat) (ord : String) : String :=
  "\t\t\x7b\n" ++
  "\t\t\tdisplayName: \x27Input Image " ++ toString i ++ "\x27,\n" ++
  "\t\t\tname: \x27nbInputImage" ++ toString i ++ "\x27,\n" ++
  "\t\t\ttype: \x27string\x27,\n" ++
  "\t\t\tdefault: \x27\x27,\n" ++
  "\t\t\tdisplayOptions: \x7b\n" ++
  "\t\t\t\tshow: \x7b\n" ++
  "\t\t\t\t\toperation: [\x27nanoBanana\x27],\n" ++
  "\t\t\t\t\x7d,\n" ++
  "\t\t\t\x7d,\n" ++
  "\t\t\tplaceholder: \x27Image URL, base64 data, or binary property name" ++
    (if i == 1 then " (e.g., data)" else "") ++ "\x27,\n" ++
  "\t\t\tdescription: \x27" ++ ord ++ " input image" ++
    (if 5 ≤ i then " (Gemini 3 Pro)" else "") ++ "\x27,\n" ++
  "\t\t\x7d,\n"

/-- The header comment appended first to `new_fields` (line 27). -/
def headerLine : String := "\t\t// Nano Banana - Input Images (14 separate fields)\n"

/-- The generation loop `for i in range(1, 15)` of lines 36-51: each iteration
performs the fallible lookup `ordinal_map[i]` and builds one block. -/
def blocksOpt : Option (List String) :=
  (List.range' 1 14).mapM (fun i => (ordinal_map i).map (field_template i))

/-- `new_fields` as built by lines 26-51: the header line followed by the
fourteen generated blocks; `none` would mean a `KeyError` in the loop. -/
def new_fieldsOpt : Option (List String) :=
  blocksOpt.map (fun bs => headerLine :: bs)

/-- The fourteen generated blocks as a plain list. -/
def blocksList : List String := blocksOpt.getD []

/-- `new_fields` as a plain list. -/
def new_fieldsList : List String := new_fieldsOpt.getD []

/-- Outcome of one run of the script: the error exit of lines 19-21 (carrying
the `start_idx`/`end_idx` values interpolated into the diagnostic), an
uncaught `KeyError` from `ordinal_map[i]`, or a successful write of the new
line list. -/
inductive RunResult where
  | markersNotFound : Option Nat → Option Nat → RunResult
  | keyError : RunResult
  | written : List String → RunResult
deriving DecidableEq

/-- Process exit status: `exit(1)` on the error path, an uncaught exception
also terminates abnormally, a completed write exits normally. -/
def exitCode : RunResult → Nat
  | .markersNotFound _ _ => 1
  | .keyError => 1
  | .written _ => 0

/-- How Python prints an `Option Nat` (`None` or the numeral). -/
def optStr : Option Nat → String
  | none => "None"
  | some n => toString n

/-- The diagnostic of line 20, identifying the unset index(es). -/
def markersMessage (s e : Option Nat) : String :=
  "Error: Could not find section. start_idx=" ++ optStr s ++
  ", end_idx=" ++ optStr e

/-- The whole script on a line list: scan, check, generate, splice
(`new_content = lines[:start_idx] + new_fields + lines[end_idx:]`, line 54). -/
def runScript (lines : List String) : RunResult :=
  match scanMarkers lines with
  | (some s, some e) =>
    match new_fieldsOpt with
    | some F => .written (lines.take s ++ F ++ lines.drop e)
    | none => .keyError
  | (s, e) => .markersNotFound s e

/-- The file's content after the run: rewritten on success, untouched on the
error exit (the script exits before any write). -/
def finalFile (lines : List String) : List String :=
  match runScript lines with
  | .written c => c
  | _ => lines

/-- The byte content of the file for a given line list (`writelines` writes
the strings in order with no separator). -/
def fileContent : List String → String
  | [] => ""
  | a :: rest => a ++ fileContent rest

/-- Number of physical lines of a newline-terminated file: its newline count. -/
def countNewlines (s : String) : Nat := s.toList.count '\n'

/-- The spec's description of the start-index rule, taken at its word:
the index of the *first* line that contains the start marker text and does
not contain the end-marker text. -/
def specScanStart (lines : List String) : Option Nat :=
  lines.findIdx? (fun line => containsStr line startMarker && !containsStr line endMarker)

/-- The `name:` field pattern carrying the block's index. -/
def fieldNamePat (i : Nat) : String :=
  "name: \x27nbInputImage" ++ toString i ++ "\x27"

/-- A well-formed input: both markers present, in order, with surrounding text. -/
def exPadded : List String :=
  ["alpha\n", "// Nano Banana - Input Images\n", "middle\n",
   "// Nano Banana - Aspect Ratio\n", "omega\n"]

/-- An input with two lines matching the start condition before the end marker. -/
def exDoubleStart : List String :=
  ["// Nano Banana - Input Images\n", "// Nano Banana - Input Images again\n",
   "// Nano Banana - Aspect Ratio\n"]

/-- The smallest well-formed input: the two marker lines. -/
def exTwoLines : List String :=
  ["// Nano Banana - Input Images\n", "// Nano Banana - Aspect Ratio\n"]

/-- A well-formed input with a line to be replaced between the markers. -/
def exSplice : List String :=
  ["pre\n", "// Nano Banana - Input Images\n", "old\n",
   "// Nano Banana - Aspect Ratio\n", "post\n"]

/-- An input in which the end marker appears only before the start marker. -/
def exEndFirst : List String :=
  ["// Nano Banana - Aspect Ratio\n", "// Nano Banana - Input Images\n"]

/-- A further well-formed input, differing from the others. -/
def exOther : List String :=
  ["one\n", "two\n", "// Nano Banana - Input Images\n",
   "// Nano Banana - Aspect Ratio\n"]

example : scanMarkers [startMarker, endMarker] = (some 0, some 1) := by decide

example : scanMarkers [startMarker, startMarker, endMarker] = (some 1, some 2) := by decide

example : specScanStart [startMarker, startMarker, endMarker] = some 0 := by decide

example : (new_fieldsOpt.map List.length) = some 15 := by decide

/-! ### Basic facts about the markers and the generated constants -/

theorem prefixOfChars_iff : ∀ p t : List Char, prefixOfChars p t = true ↔ p <+: t
  | [], t => by simp [prefixOfChars]
  | a :: as, [] => by simp [prefixOfChars]
  | a :: as, b :: bs => by
    simp [prefixOfChars, List.cons_prefix_cons, prefixOfChars_iff as bs]

theorem infixOfChars_iff : ∀ p t : List Char, infixOfChars p t = true ↔ p <:+: t
  | p, [] => by simp [infixOfChars, List.isEmpty_iff, List.infix_nil]
  | p, b :: bs => by
    rw [infixOfChars, Bool.or_eq_true, prefixOfChars_iff, infixOfChars_iff p bs,
      List.infix_cons_iff]

theorem contains_iff (s pat : String) :
    containsStr s pat = true ↔ pat.toList <:+: s.toList :=
  infixOfChars_iff _ _

theorem contains_trans {a : String} {p q : String}
    (hpq : p.toList <:+: q.toList) (h : containsStr a q = true) :
    containsStr a p = true := by
  have hq : q.toList <:+: a.toList := (contains_iff a q).mp h
  exact (contains_iff a p).mpr (hpq.trans hq)

theorem isEnd_not_isStart {a : String} (h : isEndLine a = true) :
    isStartLine a = false := by
  have hex : containsStr a exclMarker = true :=
    contains_trans (p := exclMarker) (q := endMarker) (by decide) h
  simp [isStartLine, hex]

theorem header_isStart : isStartLine headerLine = true := by decide

theorem header_not_end : isEndLine headerLine = false := by decide

theorem blocksOpt_eq : blocksOpt = some blocksList := rfl

theorem new_fieldsOpt_eq : new_fieldsOpt = some new_fieldsList := rfl

theorem new_fields_cons : new_fieldsList = headerLine :: blocksList := rfl

theorem blocksList_length : blocksList.length = 14 := rfl

theorem new_fieldsList_length : new_fieldsList.length = 15 := rfl

set_option maxRecDepth 100000 in
theorem blocks_neutral :
    ∀ b ∈ blocksList, isStartLine b = false ∧ isEndLine b = false := by decide

/-! ### Generic list helpers -/

theorem take_len_append {α : Type} : ∀ (X Y : List α), (X ++ Y).take X.length = X
  | [], _ => rfl
  | x :: xs, Y => by simp [List.take_succ_cons, take_len_append xs Y]

theorem drop_len_append {α : Type} : ∀ (X Y : List α), (X ++ Y).drop X.length = Y
  | [], _ => rfl
  | x :: xs, Y => by simp [List.drop_succ_cons, drop_len_append xs Y]

theorem drop_get_cons {α : Type} :
    ∀ (l : List α) (n : Nat) (b : α), l[n]? = some b → l.drop n = b :: l.drop (n + 1)
  | [], n, b, h => by simp at h
  | x :: xs, 0, b, h => by simp at h; simp [h]
  | x :: xs, n + 1, b, h => by
    simp only [List.getElem?_cons_succ] at h
    simpa [List.drop_succ_cons] using drop_get_cons xs n b h

/-! ### Decomposition lemmas for the scan loop -/

/-- If the loop does not break inside a segment, scanning the segment followed
by a continuation is scanning the continuation from the segment's final state. -/
theorem scanFrom_append_of_not_breaks :
    ∀ (P Q : List String) (i : Nat) (st : Option Nat),
      segBreaks P i st = false →
      scanFrom (P ++ Q) i st = scanFrom Q (i + P.length) (segState P i st)
  | [], Q, i, st, _ => by simp [segState]
  | a :: P, Q, i, st, h => by
    simp only [segBreaks] at h
    by_cases hc : ((stepState st i a).isSome && isEndLine a) = true
    · rw [if_pos hc] at h
      exact Bool.noConfusion h
    · rw [if_neg hc] at h
      simp only [List.cons_append, scanFrom]
      rw [if_neg hc]
      simp only [List.append_eq]
      rw [scanFrom_append_of_not_breaks P Q (i + 1) (stepState st i a) h]
      have harith : i + 1 + P.length = i + (a :: P).length := by
        simp [List.length_cons]
        omega
      rw [harith]
      rfl

/-- Scanning a segment whose lines match neither marker condition changes
nothing: neither the state nor the break status. -/
theorem scanFrom_append_neutral :
    ∀ (B Q : List String) (i : Nat) (st : Option Nat),
      (∀ b ∈ B, isStartLine b = false ∧ isEndLine b = false) →
      scanFrom (B ++ Q) i st = scanFrom Q (i + B.length) st
  | [], Q, i, st, _ => by simp
  | b :: B, Q, i, st, h => by
    have hb := h b (by simp)
    have hB : ∀ x ∈ B, isStartLine x = false ∧ isEndLine x = false :=
      fun x hx => h x (by simp [hx])
    simp only [List.cons_append, scanFrom]
    have hst : stepState st i b = st := by simp [stepState, hb.1]
    rw [hst, if_neg (by simp [hb.2])]
    simp only [List.append_eq]
    rw [scanFrom_append_neutral B Q (i + 1) st hB]
    have harith : i + 1 + B.length = i + (b :: B).length := by
      simp [List.length_cons]
      omega
    rw [harith]

/-- No break in a segment means no break in any prefix of it. -/
theorem segBreaks_take :
    ∀ (P : List String) (m i : Nat) (st : Option Nat),
      segBreaks P i st = false → segBreaks (P.take m) i st = false
  | [], m, i, st, _ => by simp [segBreaks]
  | a :: P, 0, i, st, _ => by simp [segBreaks]
  | a :: P, m + 1, i, st, h => by
    simp only [segBreaks, List.take_succ_cons] at h ⊢
    by_cases hc : ((stepState st i a).isSome && isEndLine a) = true
    · simp [hc] at h
    · rw [if_neg hc] at h ⊢
      exact segBreaks_take P m (i + 1) (stepState st i a) h

/-! ### Characterization of a successful scan -/

/-- When the scan over a suffix (starting at absolute index `i` with current
state `st` holding only indices below `i`) returns both indices: the start
precedes the end, the end points at a line matching the end condition inside
the suffix, and the loop does not break before reaching it. -/
theorem scanFrom_found :
    ∀ (l : List String) (i : Nat) (st : Option Nat) (s e : Nat),
      (∀ v, st = some v → v < i) →
      scanFrom l i st = (some s, some e) →
      s < e ∧ i ≤ e ∧ e - i < l.length
        ∧ (∃ b, l[e - i]? = some b ∧ isEndLine b = true)
        ∧ segBreaks (l.take (e - i)) i st = false
  | [], _, _, _, _, _, h => by simp [scanFrom] at h
  | a :: l, i, st, s, e, inv, h => by
    simp only [scanFrom] at h
    by_cases hc : ((stepState st i a).isSome && isEndLine a) = true
    · rw [if_pos hc] at h
      have h1 : stepState st i a = some s := congrArg Prod.fst h
      have h2 : (some i : Option Nat) = some e := congrArg Prod.snd h
      have hie : i = e := Option.some.inj h2
      have hEnd : isEndLine a = true := by
        rcases Bool.and_eq_true_iff.mp hc with ⟨_, hb⟩
        exact hb
      have hna : isStartLine a = false := isEnd_not_isStart hEnd
      have hst : st = some s := by
        rw [← h1]
        simp [stepState, hna]
      have hsi : s < i := inv s hst
      subst hie
      refine ⟨hsi, Nat.le_refl i, ?_, ⟨a, ?_, hEnd⟩, ?_⟩
      · simp
      · simp
      · simp [segBreaks]
    · rw [if_neg hc] at h
      have inv' : ∀ v, stepState st i a = some v → v < i + 1 := by
        intro v hv
        by_cases hs : isStartLine a = true
        · simp [stepState, hs] at hv
          omega
        · have hs' : isStartLine a = false := by simpa using hs
          simp [stepState, hs'] at hv
          exact Nat.lt_succ_of_lt (inv v hv)
      obtain ⟨hse, hie, hlen, ⟨b, hb, hbe⟩, hbr⟩ :=
        scanFrom_found l (i + 1) (stepState st i a) s e inv' h
      have hei : e - i = (e - (i + 1)) + 1 := by omega
      refine ⟨hse, by omega, ?_, ⟨b, ?_, hbe⟩, ?_⟩
      · simp only [List.length_cons]
        omega
      · rw [hei]
        simpa using hb
      · rw [hei, List.take_succ_cons]
        simp only [segBreaks]
        rw [if_neg hc]
        exact hbr

/-- Location part of the characterization: where the recorded start index
comes from (the state, or a matching line of the suffix, which is then the
last start match before the end), no start match lies strictly between the
recorded start and the end, and the recorded end is the first end match
reached with a start already recorded. -/
theorem scanFrom_found_loc :
    ∀ (l : List String) (i : Nat) (st : Option Nat) (s e : Nat),
      (∀ v, st = some v → v < i) →
      scanFrom l i st = (some s, some e) →
      ((st = some s ∧ s < i) ∨
        (i ≤ s ∧ ∃ a, l[s - i]? = some a ∧ isStartLine a = true))
      ∧ (∀ j x, l[j]? = some x → s < i + j → i + j < e → isStartLine x = false)
      ∧ (∀ j x, l[j]? = some x → i + j < e → isEndLine x = true →
          st = none ∧ ∀ k y, k ≤ j → l[k]? = some y → isStartLine y = false)
  | [], _, _, _, _, _, h => by simp [scanFrom] at h
  | a :: l, i, st, s, e, inv, h => by
    simp only [scanFrom] at h
    by_cases hc : ((stepState st i a).isSome && isEndLine a) = true
    · rw [if_pos hc] at h
      have h1 : stepState st i a = some s := congrArg Prod.fst h
      have h2 : (some i : Option Nat) = some e := congrArg Prod.snd h
      have hie : i = e := Option.some.inj h2
      have hEnd : isEndLine a = true := (Bool.and_eq_true_iff.mp hc).2
      have hna : isStartLine a = false := isEnd_not_isStart hEnd
      have hst : st = some s := by
        rw [← h1]
        simp [stepState, hna]
      refine ⟨Or.inl ⟨hst, inv s hst⟩, ?_, ?_⟩
      · intro j x _ _ hlt
        omega
      · intro j x _ hlt
        omega
    · rw [if_neg hc] at h
      have inv' : ∀ v, stepState st i a = some v → v < i + 1 := by
        intro v hv
        by_cases hs : isStartLine a = true
        · simp [stepState, hs] at hv
          omega
        · have hs' : isStartLine a = false := by simpa using hs
          simp [stepState, hs'] at hv
          exact Nat.lt_succ_of_lt (inv v hv)
      obtain ⟨hloc, hmid, hmin⟩ :=
        scanFrom_found_loc l (i + 1) (stepState st i a) s e inv' h
      have hnoStart_lt : s < i → isStartLine a = false := by
        intro hsi
        by_cases hs : isStartLine a = true
        · exfalso
          have hstep : stepState st i a = some i := by simp [stepState, hs]
          rcases hloc with ⟨hst', hsi1⟩ | ⟨hi1s, _⟩
          · rw [hstep] at hst'
            have : i = s := Option.some.inj hst'
            omega
          · omega
        · simpa using hs
      refine ⟨?_, ?_, ?_⟩
      · rcases hloc with ⟨hst', hsi1⟩ | ⟨hi1s, ⟨a', ha', hsa'⟩⟩
        · by_cases hs : isStartLine a = true
          · have hstep : stepState st i a = some i := by simp [stepState, hs]
            rw [hstep] at hst'
            have hsi : s = i := (Option.some.inj hst').symm
            refine Or.inr ⟨Nat.le_of_eq hsi.symm, ⟨a, ?_, hs⟩⟩
            simp [hsi]
          · have hs' : isStartLine a = false := by simpa using hs
            have hstep : stepState st i a = st := by simp [stepState, hs']
            rw [hstep] at hst'
            exact Or.inl ⟨hst', inv s hst'⟩
        · refine Or.inr ⟨by omega, ⟨a', ?_, hsa'⟩⟩
          have hsplit : s - i = (s - (i + 1)) + 1 := by omega
          rw [hsplit]
          simpa using ha'
      · intro j x hx hsj hje
        match j, hx with
        | 0, hx =>
          have hxa : a = x := by simpa using hx
          subst hxa
          exact hnoStart_lt (by omega)
        | j + 1, hx =>
          have hx' : l[j]? = some x := by simpa using hx
          exact hmid j x hx' (by omega) (by omega)
      · intro j x hx hje hxe
        match j, hx with
        | 0, hx =>
          have hxa : a = x := by simpa using hx
          subst hxa
          have hna : isStartLine a = false := isEnd_not_isStart hxe
          have hstep : stepState st i a = st := by simp [stepState, hna]
          have hstn : st = none := by
            cases st with
            | none => rfl
            | some v =>
              exfalso
              apply hc
              rw [hstep]
              simp [hxe]
          refine ⟨hstn, ?_⟩
          intro k y hk hy
          have hk0 : k = 0 := Nat.le_zero.mp hk
          subst hk0
          have : a = y := by simpa using hy
          subst this
          exact hna
        | j + 1, hx =>
          have hx' : l[j]? = some x := by simpa using hx
          obtain ⟨hst'n, hrest⟩ := hmin j x hx' (by omega) hxe
          have hna : isStartLine a = false := by
            by_cases hs : isStartLine a = true
            · exfalso
              have : stepState st i a = some i := by simp [stepState, hs]
              rw [this] at hst'n
              exact Option.noConfusion hst'n
            · simpa using hs
          have hstn : st = none := by
            have : stepState st i a = st := by simp [stepState, hna]
            rw [this] at hst'n
            exact hst'n
          refine ⟨hstn, ?_⟩
          intro k y hk hy
          match k, hy with
          | 0, hy =>
            have : a = y := by simpa using hy
            subst this
            exact hna
          | k + 1, hy =>
            have hy' : l[k]? = some y := by simpa using hy
            exact hrest k y (by omega) hy'

/-- Top-level scan characterization, part 1. -/
theorem scanMarkers_found {l : List String} {s e : Nat}
    (h : scanMarkers l = (some s, some e)) :
    s < e ∧ e < l.length
      ∧ (∃ b, l[e]? = some b ∧ isEndLine b = true)
      ∧ segBreaks (l.take e) 0 none = false := by
  obtain ⟨hse, _, hlen, hend, hbr⟩ :=
    scanFrom_found l 0 none s e (fun v hv => Option.noConfusion hv) h
  refine ⟨hse, by simpa using hlen, by simpa using hend, by simpa using hbr⟩

/-- Top-level scan characterization, part 2: the recorded start points at a
start-condition line, no start-condition line lies strictly between it and
the end, and no end-condition line before the recorded end is preceded (or
met) by any start-condition line. -/
theorem scanMarkers_found_loc {l : List String} {s e : Nat}
    (h : scanMarkers l = (some s, some e)) :
    (∃ a, l[s]? = some a ∧ isStartLine a = true)
      ∧ (∀ j x, l[j]? = some x → s < j → j < e → isStartLine x = false)
      ∧ (∀ j x, l[j]? = some x → j < e → isEndLine x = true →
          ∀ k y, k ≤ j → l[k]? = some y → isStartLine y = false) := by
  obtain ⟨hloc, hmid, hmin⟩ :=
    scanFrom_found_loc l 0 none s e (fun v hv => Option.noConfusion hv) h
  refine ⟨?_, ?_, ?_⟩
  · rcases hloc with ⟨hst, _⟩ | ⟨_, ⟨a, ha, hsa⟩⟩
    · exact Option.noConfusion hst
    · exact ⟨a, by simpa using ha, hsa⟩
  · intro j x hx hsj hje
    exact hmid j x hx (by omega) (by omega)
  · intro j x hx hje hxe
    exact (hmin j x hx (by omega) hxe).2

/-- Reduction of `runScript` on a successful scan. -/
theorem runScript_written {l : List String} {s e : Nat}
    (h : scanMarkers l = (some s, some e)) :
    runScript l = .written (l.take s ++ new_fieldsList ++ l.drop e) := by
  rw [runScript, h, new_fieldsOpt_eq]

/-- Reduction of `runScript` on a failed scan: the error exit carrying the
indices, and the untouched file (nothing has been written). -/
theorem runScript_error {l : List String}
    (h : (scanMarkers l).1 = none ∨ (scanMarkers l).2 = none) :
    runScript l = .markersNotFound (scanMarkers l).1 (scanMarkers l).2 ∧
      finalFile l = l := by
  rcases hsc : scanMarkers l with ⟨p, q⟩
  rw [hsc] at h
  simp only [] at h
  have hrun : runScript l = .markersNotFound p q := by
    rw [runScript, hsc]
    rcases p with _ | pv <;> rcases q with _ | qv
    · rfl
    · rfl
    · rfl
    · simp at h
  refine ⟨?_, ?_⟩
  · simpa using hrun
  · rw [finalFile, hrun]

/-- A successful run exposes the scan result and the splice. -/
theorem written_eq {l c : List String} (h : runScript l = .written c) :
    ∃ s e, scanMarkers l = (some s, some e) ∧
      c = l.take s ++ new_fieldsList ++ l.drop e := by
  rcases hsc : scanMarkers l with ⟨p, q⟩
  rcases p with _ | s <;> rcases q with _ | e
  · rw [runScript, hsc] at h
    exact RunResult.noConfusion h
  · rw [runScript, hsc] at h
    exact RunResult.noConfusion h
  · rw [runScript, hsc] at h
    exact RunResult.noConfusion h
  · rw [runScript, hsc, new_fieldsOpt_eq] at h
    have hc : l.take s ++ new_fieldsList ++ l.drop e = c := by
      have := RunResult.written.inj h
      exact this
    exact ⟨s, e, rfl, hc.symm⟩

/-- Idempotency engine: on the output of a successful run, the scan finds the
generated header line (which contains the start marker) as start and the
retained end-marker line as end, and the re-splice reproduces the file. -/
theorem runScript_idem {l c : List String} (h : runScript l = .written c) :
    ∃ s, scanMarkers c = (some s, some (s + 15)) ∧ runScript c = .written c := by
  obtain ⟨s, e, hsc, hceq⟩ := written_eq h
  obtain ⟨hse, hel, ⟨b, hbe, hbend⟩, hbr⟩ := scanMarkers_found hsc
  have hsl : s ≤ l.length := by omega
  have htlen : (l.take s).length = s := by
    rw [List.length_take, Nat.min_eq_left hsl]
  have hbrs : segBreaks (l.take s) 0 none = false := by
    have htt := segBreaks_take (l.take e) s 0 none hbr
    rwa [List.take_take, Nat.min_eq_left (Nat.le_of_lt hse)] at htt
  have hc1 : scanFrom (l.take s ++ (new_fieldsList ++ l.drop e)) 0 none
      = scanFrom (new_fieldsList ++ l.drop e) s (segState (l.take s) 0 none) := by
    have hx := scanFrom_append_of_not_breaks (l.take s) (new_fieldsList ++ l.drop e) 0 none hbrs
    rwa [htlen, Nat.zero_add] at hx
  have hc2 : scanFrom (new_fieldsList ++ l.drop e) s (segState (l.take s) 0 none)
      = scanFrom (blocksList ++ l.drop e) (s + 1) (some s) := by
    rw [new_fields_cons, List.cons_append]
    simp only [scanFrom]
    have hstep : stepState (segState (l.take s) 0 none) s headerLine = some s := by
      simp [stepState, header_isStart]
    rw [hstep, if_neg (by simp [header_not_end])]
  have hc3 : scanFrom (blocksList ++ l.drop e) (s + 1) (some s)
      = scanFrom (l.drop e) (s + 15) (some s) := by
    have hx := scanFrom_append_neutral blocksList (l.drop e) (s + 1) (some s) blocks_neutral
    rwa [blocksList_length, show s + 1 + 14 = s + 15 by omega] at hx
  have hdrop : l.drop e = b :: l.drop (e + 1) := drop_get_cons l e b hbe
  have hc4 : scanFrom (b :: l.drop (e + 1)) (s + 15) (some s) = (some s, some (s + 15)) := by
    simp only [scanFrom]
    have hnb : isStartLine b = false := isEnd_not_isStart hbend
    have hstep : stepState (some s) (s + 15) b = some s := by simp [stepState, hnb]
    rw [hstep, if_pos (by simp [hbend])]
  have hscanc : scanMarkers c = (some s, some (s + 15)) := by
    rw [hceq, List.append_assoc]
    show scanFrom (l.take s ++ (new_fieldsList ++ l.drop e)) 0 none = _
    rw [hc1, hc2, hc3, hdrop, hc4]
  have hctake : c.take s = l.take s := by
    rw [hceq, List.append_assoc]
    have hx := take_len_append (l.take s) (new_fieldsList ++ l.drop e)
    rwa [htlen] at hx
  have hcdrop : c.drop (s + 15) = l.drop e := by
    have hlen2 : (l.take s ++ new_fieldsList).length = s + 15 := by
      rw [List.length_append, htlen, new_fieldsList_length]
    have hx := drop_len_append (l.take s ++ new_fieldsList) (l.drop e)
    rw [hlen2] at hx
    rw [hceq]
    exact hx
  refine ⟨s, hscanc, ?_⟩
  rw [runScript_written hscanc, hctake, hcdrop, ← hceq]

/-! ### Helpers about file content, newline counts and substring extension -/

theorem countNewlines_append (a b : String) :
    countNewlines (a ++ b) = countNewlines a + countNewlines b := by
  simp [countNewlines, String.toList, String.data_append, List.count_append]

theorem countNewlines_fileContent_append :
    ∀ (A B : List String),
      countNewlines (fileContent (A ++ B)) =
        countNewlines (fileContent A) + countNewlines (fileContent B)
  | [], B => by
    show countNewlines (fileContent B) = countNewlines "" + countNewlines (fileContent B)
    have hz : countNewlines "" = 0 := rfl
    omega
  | a :: A, B => by
    simp only [List.cons_append, fileContent, List.append_eq]
    rw [countNewlines_append, countNewlines_append,
      countNewlines_fileContent_append A B]
    omega

theorem countNewlines_fileContent :
    ∀ L : List String, countNewlines (fileContent L) = (L.map countNewlines).sum
  | [] => rfl
  | a :: L => by
    show countNewlines (a ++ fileContent L) = _
    rw [countNewlines_append, countNewlines_fileContent L]
    simp

set_option maxRecDepth 10000 in
theorem countNewlines_new_fields : countNewlines (fileContent new_fieldsList) = 183 := by
  rw [countNewlines_fileContent]
  decide

theorem containsStr_append_left {A p : String} (B : String)
    (h : containsStr A p = true) : containsStr (A ++ B) p = true := by
  have hp : p.toList <:+: A.toList := (contains_iff A p).mp h
  have hA : A.toList <:+: (A ++ B).toList := by
    have hpre : A.toList <+: A.toList ++ B.toList := List.prefix_append _ _
    simpa [String.toList, String.data_append] using hpre.isInfix
  exact (contains_iff (A ++ B) p).mpr (hp.trans hA)

theorem containsStr_append_pair (X M N p : String)
    (h : containsStr (M ++ N) p = true) : containsStr ((X ++ M) ++ N) p = true := by
  have hp : p.toList <:+: (M ++ N).toList := (contains_iff (M ++ N) p).mp h
  have hMN : (M ++ N).toList <:+: ((X ++ M) ++ N).toList := by
    have hsuf : M.toList ++ N.toList <:+ X.toList ++ (M.toList ++ N.toList) :=
      List.suffix_append _ _
    simpa [String.toList, String.data_append, List.append_assoc] using hsuf.isInfix
  exact (contains_iff ((X ++ M) ++ N) p).mpr (hp.trans hMN)

/-- The middle segment of a successful run's output is the generated list. -/
theorem middle_segment {l c : List String} {s e : Nat}
    (hsc : scanMarkers l = (some s, some e)) (h : runScript l = .written c) :
    (c.drop s).take 15 = new_fieldsList := by
  rw [runScript_written hsc] at h
  have hceq : c = l.take s ++ new_fieldsList ++ l.drop e :=
    (RunResult.written.inj h).symm
  obtain ⟨hse, hel, _, _⟩ := scanMarkers_found hsc
  have hsl : s ≤ l.length := by omega
  have htlen : (l.take s).length = s := by
    rw [List.length_take, Nat.min_eq_left hsl]
  have hdropc : c.drop s = new_fieldsList ++ l.drop e := by
    rw [hceq, List.append_assoc]
    have hx := drop_len_append (l.take s) (new_fieldsList ++ l.drop e)
    rwa [htlen] at hx
  rw [hdropc]
  have hx := take_len_append new_fieldsList (l.drop e)
  rwa [new_fieldsList_length] at hx

/-! ### The claims -/

/-- C1 counterexample: on the smallest padded well-formed input, the first run
succeeds, and the second run — contrary to the claim — locates both markers
again (the generated header line contains the start marker), exits with
status 0 rather than abnormally, and performs a write (of identical content)
rather than printing the marker-not-found diagnostic. -/
theorem C1_counterexample :
    exitCode (runScript exPadded) = 0
      ∧ (scanMarkers (finalFile exPadded)).1 ≠ none
      ∧ (scanMarkers (finalFile exPadded)).2 ≠ none
      ∧ exitCode (runScript (finalFile exPadded)) = 0
      ∧ finalFile (finalFile exPadded) = finalFile exPadded := by
  decide

/-- C1 (amended): running the script a second time, on a file that is the
output of a first successful run, locates the start marker again (the
generated header line contains the start marker substring), exits normally,
and leaves the file byte-for-byte unchanged (it rewrites identical content). -/
theorem C1_second_run {l c : List String} (h : runScript l = .written c) :
    runScript c = .written c ∧ exitCode (runScript c) = 0 ∧ finalFile c = c := by
  obtain ⟨s, _, hrc⟩ := runScript_idem h
  refine ⟨hrc, by rw [hrc]; rfl, ?_⟩
  rw [finalFile, hrc]

/-- Witness for C1 (amended) at a concrete input. -/
theorem C1_second_run_witness :
    runScript exSplice = .written (finalFile exSplice)
      ∧ (runScript (finalFile exSplice) = .written (finalFile exSplice)
          ∧ exitCode (runScript (finalFile exSplice)) = 0
          ∧ finalFile (finalFile exSplice) = finalFile exSplice) :=
  ⟨by decide, @C1_second_run exSplice (finalFile exSplice) (by decide)⟩

/-- C2 counterexample: with two start-condition lines before the end marker,
the code records the second (last) one, while the spec's "first line" rule
would record the first. -/
theorem C2_counterexample :
    specScanStart exDoubleStart = some 0
      ∧ scanMarkers exDoubleStart = (some 1, some 2)
      ∧ (scanMarkers exDoubleStart).1 ≠ specScanStart exDoubleStart := by
  decide

/-- C2 (amended): when the scan records both indices, the start index points
at a start-condition line that is the *last* such line before the end index
(each match overwrites the previous value, so no start-condition line lies
strictly between it and the end index); the end index is the first line
containing the end marker text reached after some start-condition line, and
scanning stops there. -/
theorem C2_scan_characterization {l : List String} {s e : Nat}
    (h : scanMarkers l = (some s, some e)) :
    (∃ a, l[s]? = some a ∧ isStartLine a = true)
      ∧ (∀ j x, l[j]? = some x → s < j → j < e → isStartLine x = false)
      ∧ (∃ b, l[e]? = some b ∧ isEndLine b = true)
      ∧ (∀ j x, l[j]? = some x → j < e → isEndLine x = true →
          ∀ k y, k ≤ j → l[k]? = some y → isStartLine y = false) := by
  obtain ⟨hstart, hmid, hmin⟩ := scanMarkers_found_loc h
  obtain ⟨_, _, hend, _⟩ := scanMarkers_found h
  exact ⟨hstart, hmid, hend, hmin⟩

/-- Witness for C2 (amended) at the double-start input. -/
theorem C2_scan_characterization_witness :
    scanMarkers exDoubleStart = (some 1, some 2)
      ∧ ((∃ a, exDoubleStart[1]? = some a ∧ isStartLine a = true)
        ∧ (∀ j x, exDoubleStart[j]? = some x → 1 < j → j < 2 → isStartLine x = false)
        ∧ (∃ b, exDoubleStart[2]? = some b ∧ isEndLine b = true)
        ∧ (∀ j x, exDoubleStart[j]? = some x → j < 2 → isEndLine x = true →
            ∀ k y, k ≤ j → exDoubleStart[k]? = some y → isStartLine y = false)) :=
  ⟨by decide, @C2_scan_characterization exDoubleStart 1 2 (by decide)⟩

/-- C3 counterexample: on the two-marker input the claim's formula predicts
`0 + 1 + 14 + 1 = 16` output lines, but the written file physically has 184
lines (each generated block spans 13 physical lines, not 1). -/
theorem C3_counterexample :
    scanMarkers exTwoLines = (some 0, some 1)
      ∧ countNewlines (fileContent exTwoLines) = 2
      ∧ countNewlines (fileContent (finalFile exTwoLines)) = 184
      ∧ ¬ (countNewlines (fileContent (finalFile exTwoLines)) =
            (exTwoLines.take 0).length + 1 + 14 + (exTwoLines.drop 1).length) := by
  have hcount : countNewlines (fileContent (finalFile exTwoLines)) = 184 := by
    rw [countNewlines_fileContent]
    decide
  refine ⟨by decide, by decide, hcount, ?_⟩
  rw [hcount]
  decide

section

set_option maxHeartbeats 4000000

/-- C3 (amended): counting each written element (the header and each
generated block) as one unit, the output has `s + 15 + (n - e)` elements;
physically the file has (newlines before start) + 1 + 14·13 + (newlines from
the end marker onward) lines, since each block spans 13 physical lines; and
the generated segment contains the field-name pattern with indices 1..14 in
order, each exactly once. -/
theorem C3_output_shape {l c : List String} {s e : Nat}
    (hsc : scanMarkers l = (some s, some e)) (h : runScript l = .written c) :
    c.length = s + 15 + (l.length - e)
      ∧ countNewlines (fileContent c)
          = countNewlines (fileContent (l.take s)) + (1 + 14 * 13)
            + countNewlines (fileContent (l.drop e))
      ∧ (∀ i, 1 ≤ i → i ≤ 14 →
          ((c.drop s).take 15).findIdx? (fun b => containsStr b (fieldNamePat i)) = some i
          ∧ (((c.drop s).take 15).filter (fun b => containsStr b (fieldNamePat i))).length = 1) := by
  have hmid := middle_segment hsc h
  rw [runScript_written hsc] at h
  have hceq : c = l.take s ++ new_fieldsList ++ l.drop e :=
    (RunResult.written.inj h).symm
  obtain ⟨hse, hel, _, _⟩ := scanMarkers_found hsc
  have hsl : s ≤ l.length := by omega
  have htlen : (l.take s).length = s := by
    rw [List.length_take, Nat.min_eq_left hsl]
  refine ⟨?_, ?_, ?_⟩
  · rw [hceq]
    simp only [List.length_append, htlen, new_fieldsList_length, List.length_drop]
  · rw [hceq, countNewlines_fileContent_append, countNewlines_fileContent_append,
      countNewlines_new_fields]
  · intro i h1 h2
    rw [hmid]
    interval_cases i <;> exact ⟨by decide, by decide⟩

end


/-- Witness for C3 (amended) at a concrete input and index. -/
theorem C3_output_shape_witness :
    scanMarkers exOther = (some 2, some 3)
      ∧ runScript exOther = .written (finalFile exOther)
      ∧ ((finalFile exOther).length = 2 + 15 + (exOther.length - 3)
        ∧ countNewlines (fileContent (finalFile exOther))
            = countNewlines (fileContent (exOther.take 2)) + (1 + 14 * 13)
              + countNewlines (fileContent (exOther.drop 3))
        ∧ (∀ i, 1 ≤ i → i ≤ 14 →
            (((finalFile exOther).drop 2).take 15).findIdx?
                (fun b => containsStr b (fieldNamePat i)) = some i
            ∧ ((((finalFile exOther).drop 2).take 15).filter
                (fun b => containsStr b (fieldNamePat i))).length = 1)) :=
  ⟨by decide, by decide,
    @C3_output_shape exOther (finalFile exOther) 2 3 (by decide) (by decide)⟩

/-- C4: when both markers are located, the output is the lines strictly
before the start index, then the generated list, then the lines from the end
index onward; the end-marker line is retained unchanged as the first line of
the trailing segment. -/
theorem C4_splice {l : List String} {s e : Nat}
    (h : scanMarkers l = (some s, some e)) :
    runScript l = .written (l.take s ++ new_fieldsList ++ l.drop e)
      ∧ (l.drop e).head? = l[e]?
      ∧ (∃ b, l[e]? = some b ∧ isEndLine b = true) := by
  obtain ⟨_, _, ⟨b, hb, hbe⟩, _⟩ := scanMarkers_found h
  refine ⟨runScript_written h, ?_, ⟨b, hb, hbe⟩⟩
  rw [drop_get_cons l e b hb, hb]
  rfl

/-- Witness for C4 at a concrete input. -/
theorem C4_splice_witness :
    scanMarkers exSplice = (some 1, some 3)
      ∧ (runScript exSplice = .written (exSplice.take 1 ++ new_fieldsList ++ exSplice.drop 3)
        ∧ (exSplice.drop 3).head? = exSplice[3]?
        ∧ (∃ b, exSplice[3]? = some b ∧ isEndLine b = true)) :=
  ⟨by decide, @C4_splice exSplice 1 3 (by decide)⟩

/-- C5: the generated list is one header line followed by, for each `i` from
1 to 14, one block containing the numeral `i` and the ordinal word of the
fixed mapping; the example-placeholder suffix appears in the block iff
`i = 1`, and the extra description suffix iff `i ≥ 5`. -/
theorem C5_blocks (i : Nat) (h1 : 1 ≤ i) (h2 : i ≤ 14) :
    new_fieldsList.head? = some headerLine
      ∧ ∃ b ord, new_fieldsList[i]? = some b ∧ ordinal_map i = some ord
          ∧ containsStr b (toString i) = true
          ∧ containsStr b ord = true
          ∧ (containsStr b " (e.g., data)" = true ↔ i = 1)
          ∧ (containsStr b " (Gemini 3 Pro)" = true ↔ 5 ≤ i) := by
  refine ⟨rfl, ?_⟩
  interval_cases i <;>
    exact ⟨_, _, rfl, rfl, by decide, by decide, by decide, by decide⟩

/-- Witness for C5 at index 5 (the first block with the extra description). -/
theorem C5_blocks_witness :
    (1 ≤ 5 ∧ 5 ≤ 14)
      ∧ (new_fieldsList.head? = some headerLine
        ∧ ∃ b ord, new_fieldsList[5]? = some b ∧ ordinal_map 5 = some ord
            ∧ containsStr b (toString 5) = true
            ∧ containsStr b ord = true
            ∧ (containsStr b " (e.g., data)" = true ↔ 5 = 1)
            ∧ (containsStr b " (Gemini 3 Pro)" = true ↔ 5 ≤ 5)) :=
  ⟨⟨by decide, by decide⟩, C5_blocks 5 (by decide) (by decide)⟩

/-- C6: whenever the scan leaves either index unset, the script takes the
error exit (carrying both index values), terminates with status 1 before any
write, leaves the file unchanged, and the printed diagnostic names the unset
index(es) as `None`. -/
theorem C6_error_exit {l : List String}
    (h : (scanMarkers l).1 = none ∨ (scanMarkers l).2 = none) :
    runScript l = .markersNotFound (scanMarkers l).1 (scanMarkers l).2
      ∧ exitCode (runScript l) = 1
      ∧ finalFile l = l
      ∧ ((scanMarkers l).1 = none →
          containsStr (markersMessage (scanMarkers l).1 (scanMarkers l).2)
            "start_idx=None" = true)
      ∧ ((scanMarkers l).2 = none →
          containsStr (markersMessage (scanMarkers l).1 (scanMarkers l).2)
            "end_idx=None" = true) := by
  obtain ⟨hrun, hfile⟩ := runScript_error h
  refine ⟨hrun, by rw [hrun]; rfl, hfile, ?_, ?_⟩
  · intro h1
    rw [h1]
    show containsStr ((("Error: Could not find section. start_idx=" ++ optStr none)
        ++ ", end_idx=") ++ optStr (scanMarkers l).2) "start_idx=None" = true
    apply containsStr_append_left
    decide
  · intro h2
    rw [h2]
    show containsStr ((("Error: Could not find section. start_idx="
        ++ optStr (scanMarkers l).1) ++ ", end_idx=") ++ optStr none) "end_idx=None" = true
    apply containsStr_append_pair
    decide

/-- Witness for C6 at an input whose end marker appears only before any
start marker: the end index stays unset. -/
theorem C6_error_exit_witness :
    ((scanMarkers exEndFirst).1 = none ∨ (scanMarkers exEndFirst).2 = none)
      ∧ (runScript exEndFirst
            = .markersNotFound (scanMarkers exEndFirst).1 (scanMarkers exEndFirst).2
        ∧ exitCode (runScript exEndFirst) = 1
        ∧ finalFile exEndFirst = exEndFirst
        ∧ ((scanMarkers exEndFirst).1 = none →
            containsStr (markersMessage (scanMarkers exEndFirst).1 (scanMarkers exEndFirst).2)
              "start_idx=None" = true)
        ∧ ((scanMarkers exEndFirst).2 = none →
            containsStr (markersMessage (scanMarkers exEndFirst).1 (scanMarkers exEndFirst).2)
              "end_idx=None" = true)) :=
  ⟨by decide, @C6_error_exit exEndFirst (by decide)⟩

/-- C7: whenever the scan sets both indices, the start index is strictly
less than the end index. -/
theorem C7_start_lt_end {l : List String} {s e : Nat}
    (h : scanMarkers l = (some s, some e)) : s < e :=
  (scanMarkers_found h).1

/-- Witness for C7 at a concrete input. -/
theorem C7_start_lt_end_witness :
    scanMarkers exTwoLines = (some 0, some 1) ∧ 0 < 1 :=
  ⟨by decide, @C7_start_lt_end exTwoLines 0 1 (by decide)⟩

/-- C8: the transformation is idempotent at the file level: after a
successful run, a second run locates both markers again and writes back a
byte-for-byte identical line list. -/
theorem C8_idempotent {l c : List String} (h : runScript l = .written c) :
    (scanMarkers c).1.isSome = true
      ∧ (scanMarkers c).2.isSome = true
      ∧ runScript c = .written c := by
  obtain ⟨s, hscan, hrc⟩ := runScript_idem h
  rw [hscan]
  exact ⟨rfl, rfl, hrc⟩

/-- Witness for C8 at a concrete input. -/
theorem C8_idempotent_witness :
    runScript exOther = .written (finalFile exOther)
      ∧ ((scanMarkers (finalFile exOther)).1.isSome = true
        ∧ (scanMarkers (finalFile exOther)).2.isSome = true
        ∧ runScript (finalFile exOther) = .written (finalFile exOther)) :=
  ⟨by decide, @C8_idempotent exOther (finalFile exOther) (by decide)⟩

/-- C9: the spliced-in middle segment does not depend on the input: for any
two inputs on which both markers are located, the 15 elements inserted at
the start index are the same list. -/
theorem C9_constant_middle {l1 l2 c1 c2 : List String} {s1 e1 s2 e2 : Nat}
    (h1 : scanMarkers l1 = (some s1, some e1)) (hr1 : runScript l1 = .written c1)
    (h2 : scanMarkers l2 = (some s2, some e2)) (hr2 : runScript l2 = .written c2) :
    (c1.drop s1).take 15 = (c2.drop s2).take 15 := by
  rw [middle_segment h1 hr1, middle_segment h2 hr2]

/-- Witness for C9 at two distinct concrete inputs. -/
theorem C9_constant_middle_witness :
    scanMarkers exSplice = (some 1, some 3)
      ∧ runScript exSplice = .written (finalFile exSplice)
      ∧ scanMarkers exTwoLines = (some 0, some 1)
      ∧ runScript exTwoLines = .written (finalFile exTwoLines)
      ∧ ((finalFile exSplice).drop 1).take 15 = ((finalFile exTwoLines).drop 0).take 15 :=
  ⟨by decide, by decide, by decide, by decide,
    @C9_constant_middle exSplice exTwoLines (finalFile exSplice) (finalFile exTwoLines)
      1 3 0 1 (by decide) (by decide) (by decide) (by decide)⟩

/-- C10: the ordinal lookup is total on the generation loop's range: every
index the loop produces (1..14) is a key of `ordinal_map`, so generation
never fails on a missing key. -/
theorem C10_ordinal_total :
    new_fieldsOpt.isSome = true
      ∧ ∀ i ∈ List.range' 1 14, (ordinal_map i).isSome = true :=
  ⟨rfl, by decide⟩

/-- Witness for C10 at the last loop index. -/
theorem C10_ordinal_total_witness :
    14 ∈ List.range' 1 14 ∧ (ordinal_map 14).isSome = true :=
  ⟨by decide, C10_ordinal_total.2 14 (by decide)⟩

end ReplaceSection
